import Mathlib

/-!
Verification of the synthetic data-generation engine of the repository
(`generate_data.py`): the calendar builder (`generate_date_dimension`), the
seasonal demand model and transaction synthesizer (`generate_sales_data`),
and the batch persistence sink.

Shallow embedding conventions:
* Calendar dates are represented by their day ordinal (days since 1970-01-01,
  proleptic Gregorian, matching Python `datetime.date`).  `civilFromDays` and
  `daysFromCivil` are the standard civil-calendar conversions;
  `pyWeekday` matches Python `date.weekday()` (Monday = 0).
* Python float arithmetic on the small decimal literals of the source is
  embedded as exact rational arithmetic (`ℚ`); Python `int()` truncation
  toward zero is `ratTrunc`.
* The global random generator is an oracle `g : ℕ → ℕ` consumed positionally:
  `random.randint(a, b)` with a nonempty range returns `a + g i % (b - a + 1)`
  and is undefined (`none`) on an empty range (Python raises `ValueError`);
  `random.choice(xs)` returns `xs[g i % len(xs)]`.
* Storage (sqlite) is a pair of committed/working row lists; `DELETE`,
  `INSERT` and `executemany` act on the working copy and `commit` publishes
  it.  A run that ends without committing leaves the committed table as it
  was (rollback on close).  Failure of the k-th storage operation is injected
  through a `failAt` parameter; the `try/except` wrapper of the source prints
  the error and returns normally.
-/

namespace FrontiersTableau

/-! ## Calendar arithmetic (Python `datetime` semantics) -/

/-- Convert a day ordinal (days since 1970-01-01) to a civil (year, month,
day) triple, proleptic Gregorian. -/
def civilFromDays (z : ℕ) : ℕ × ℕ × ℕ :=
  let zz := z + 719468
  let era := zz / 146097
  let doe := zz % 146097
  let yoe := (doe - doe / 1460 + doe / 36524 - doe / 146096) / 365
  let y := yoe + era * 400
  let doy := doe - (365 * yoe + yoe / 4 - yoe / 100)
  let mp := (5 * doy + 2) / 153
  let d := doy - (153 * mp + 2) / 5 + 1
  let m := if mp < 10 then mp + 3 else mp - 9
  (if m ≤ 2 then y + 1 else y, m, d)

/-- Convert a civil (year, month, day) date to its day ordinal (days since
1970-01-01).  Only used for years ≥ 1970, where the result is nonnegative. -/
def daysFromCivil (y m d : ℕ) : ℕ :=
  let yy := if m ≤ 2 then y - 1 else y
  let era := yy / 400
  let yoe := yy % 400
  let mp := if 2 < m then m - 3 else m + 9
  let doy := (153 * mp + 2) / 5 + d - 1
  let doe := yoe * 365 + yoe / 4 - yoe / 100 + doy
  era * 146097 + doe - 719468

/-- Python `date.weekday()`: Monday = 0 .. Sunday = 6.  1970-01-01 was a
Thursday (weekday 3). -/
def pyWeekday (z : ℕ) : ℕ := (z + 3) % 7

/-! ## Calendar Builder (`generate_date_dimension`, source lines 39-87) -/

/-- Season from month, exactly the branch structure of source lines 54-62. -/
def seasonOfMonth (month : ℕ) : String :=
  if month = 12 ∨ month = 1 ∨ month = 2 then "Winter"
  else if month = 3 ∨ month = 4 ∨ month = 5 then "Spring"
  else if month = 6 ∨ month = 7 ∨ month = 8 then "Summer"
  else "Fall"

/-- One row of `dimension_dates`.  `ordinal` is the day ordinal backing
`full_date`; it also serves as the unique `date_id` surrogate key. -/
structure DateRecord where
  ordinal : ℕ
  year : ℕ
  month : ℕ
  day : ℕ
  day_of_week : ℕ
  quarter : ℕ
  season : String
deriving DecidableEq, Repr

/-- The row inserted for the day with ordinal `n` (source lines 64-76). -/
def mkDateRecord (n : ℕ) : DateRecord :=
  let c := civilFromDays n
  { ordinal := n
    year := c.1
    month := c.2.1
    day := c.2.2
    day_of_week := pyWeekday n
    quarter := (c.2.1 - 1) / 3 + 1
    season := seasonOfMonth c.2.1 }

/-- The `while current_date <= end_date` loop of source lines 51-78, with the
remaining number of days as fuel: emits one row per day from `cur` on. -/
def buildDatesAux : ℕ → ℕ → List DateRecord
  | 0, _ => []
  | fuel + 1, cur => mkDateRecord cur :: buildDatesAux fuel (cur + 1)

/-- The rows inserted by `generate_date_dimension` for the inclusive ordinal
range `[s, e]` (the source hard-codes `s` = 2015-01-01, `e` = 2024-12-31). -/
def generate_date_dimension (s e : ℕ) : List DateRecord :=
  buildDatesAux (e + 1 - s) s

/-- `datetime(2015, 1, 1)` of source line 48. -/
def startDate : ℕ := daysFromCivil 2015 1 1

/-- `datetime(2024, 12, 31)` of source line 49. -/
def endDate : ℕ := daysFromCivil 2024 12 31

/-- The full hard-coded date dimension. -/
def dateDimension : List DateRecord := generate_date_dimension startDate endDate

/-! ## Seasonal demand model (source lines 120-140) -/

/-- Python `int()` truncation toward zero on a rational. -/
def ratTrunc (q : ℚ) : ℤ := if 0 ≤ q then ⌊q⌋ else -⌊-q⌋

/-- `seasonal_multiplier` after the month branch (lines 124-130) and the
weekend branch (lines 133-134). -/
def seasonal_multiplier (month day_of_week : ℕ) : ℚ :=
  let m1 : ℚ := 1.0
  let m2 : ℚ :=
    if month = 12 then m1 * 1.5
    else if month = 1 then m1 * 1.3
    else if month = 6 ∨ month = 7 ∨ month = 8 then m1 * 1.2
    else m1
  if day_of_week = 5 ∨ day_of_week = 6 then m2 * 1.2 else m2

/-- `yoy_growth = 1.0 + (0.1 * (year - 2015))` (source line 138). -/
def yoy_growth (year : ℤ) : ℚ := 1.0 + 0.1 * ((year : ℚ) - 2015)

/-- `final_quantity = int(base_quantity * seasonal_multiplier * yoy_growth)`
(source line 140): the demand ceiling for a (date, product) pair. -/
def final_quantity (base_quantity : ℤ) (month day_of_week : ℕ) (year : ℤ) : ℤ :=
  ratTrunc ((base_quantity : ℚ) * seasonal_multiplier month day_of_week * yoy_growth year)

/-! Spec-side definitions for claim C1, following the words of the spec:
the demand ceiling is the truncation of base_quantity times a seasonal
multiplier times a weekend multiplier times the growth factor. -/

/-- Modelled from the claim wording: seasonal multiplier as a function of
month alone. -/
def specSeasonalMult (month : ℕ) : ℚ :=
  if month = 12 then 1.5
  else if month = 1 then 1.3
  else if month = 6 ∨ month = 7 ∨ month = 8 then 1.2
  else 1.0

/-- Modelled from the claim wording: weekend multiplier (Saturday = 5,
Sunday = 6 under Monday = 0). -/
def specWeekendMult (day_of_week : ℕ) : ℚ :=
  if day_of_week = 5 ∨ day_of_week = 6 then 1.2 else 1.0

/-- Modelled from the claim wording: year-over-year growth factor. -/
def specGrowthFactor (year : ℤ) : ℚ := 1 + 0.1 * ((year : ℚ) - 2015)

/-- Modelled from the claim wording: the demand ceiling as the truncation of
the product of the base quantity and the three factors. -/
def specDemandCeiling (base_quantity : ℤ) (month day_of_week : ℕ) (year : ℤ) : ℤ :=
  ratTrunc ((base_quantity : ℚ) * specSeasonalMult month * specWeekendMult day_of_week *
    specGrowthFactor year)

/-! ## Transaction Synthesizer (`generate_sales_data`, source lines 89-189) -/

/-- The projection of a dimension row read back by
`SELECT date_id, full_date, month, day_of_week FROM dimension_dates`
(only `full_date.year` is used from `full_date`, source line 137). -/
structure DateRow where
  date_id : ℕ
  year : ℤ
  month : ℕ
  day_of_week : ℕ
deriving DecidableEq, Repr

/-- Project a `DateRecord` to the columns the sales generator reads. -/
def toDateRow (r : DateRecord) : DateRow :=
  { date_id := r.ordinal, year := (r.year : ℤ), month := r.month, day_of_week := r.day_of_week }

/-- A row of `dimension_products` as read by
`SELECT product_id, base_price FROM dimension_products`. -/
structure Product where
  product_id : ℕ
  base_price : ℚ
deriving DecidableEq, Repr

/-- One row of `fact_daily_sales` as assembled at source lines 149-158. -/
structure SaleRecord where
  product_id : ℕ
  date_id : ℕ
  quantity : ℤ
  unit_price : ℚ
  total_price : ℚ
  discount : ℚ
  channel : String
  region : String
deriving DecidableEq, Repr

/-- `random.randint(lo, hi)` with the oracle value at position `i`: a value
in `[lo, hi]` when the range is nonempty, undefined (Python `ValueError`)
otherwise. -/
def randint (g : ℕ → ℕ) (i : ℕ) (lo hi : ℤ) : Option ℤ :=
  if lo ≤ hi then some (lo + (g i : ℤ) % (hi - lo + 1)) else none

/-- `random.choice(xs)` with the oracle value at position `i` (all call
sites pass a concrete nonempty list, so a default value stands in for the
unreachable empty-list error). -/
def choiceD (g : ℕ → ℕ) (i : ℕ) (xs : List α) (d : α) : α :=
  xs.getD (g i % xs.length) d

/-- The discount pool `[0, 0, 0, 0.1, 0.2]` of source line 145. -/
def discountPool : List ℚ := [0, 0, 0, 0.1, 0.2]

/-- `channels = ['online', 'store']` (source line 107). -/
def channels : List String := ["online", "store"]

/-- `regions = ['North', 'South', 'East', 'West']` (source line 106). -/
def regions : List String := ["North", "South", "East", "West"]

/-- The inner `for _ in range(...)` body of source lines 143-159: emit `k`
sale records for one (date, product) pair, consuming four oracle values per
record, starting at oracle position `i`; returns the records and the next
oracle position. -/
def mkSales (g : ℕ → ℕ) (pid did : ℕ) (bp : ℚ) (fq : ℤ) : ℕ → ℕ → Option (List SaleRecord × ℕ)
  | 0, i => some ([], i)
  | k + 1, i => do
    let q ← randint g i 1 fq
    let disc := choiceD g (i + 1) discountPool 0
    let up := bp * (1 - disc)
    let tp := up * (q : ℚ)
    let ch := choiceD g (i + 2) channels "online"
    let rg := choiceD g (i + 3) regions "North"
    let (rest, iNext) ← mkSales g pid did bp fq k (i + 4)
    some (⟨pid, did, q, up, tp, disc, ch, rg⟩ :: rest, iNext)

/-- The per-(date, product) body of source lines 117-159: draw the base
quantity, compute the demand ceiling, draw the transaction count in `[1, 3]`
and emit that many records. -/
def pairSales (g : ℕ → ℕ) (d : DateRow) (p : Product) (i : ℕ) : Option (List SaleRecord × ℕ) := do
  let bq ← randint g i 10 50
  let fq := final_quantity bq d.month d.day_of_week d.year
  let n ← randint g (i + 1) 1 3
  mkSales g p.product_id d.date_id p.base_price fq n.toNat (i + 2)

/-- Run `pairSales` over a worklist of (date, product) pairs, threading the
oracle position and concatenating the emitted records in order. -/
def genPairs (g : ℕ → ℕ) : List (DateRow × Product) → ℕ → Option (List SaleRecord × ℕ)
  | [], i => some ([], i)
  | (d, p) :: rest, i => do
    let (rs, i1) ← pairSales g d p i
    let (rss, i2) ← genPairs g rest i1
    some (rs ++ rss, i2)

/-- The nested `for date in dates: for product in products:` iteration order
of source lines 114-117. -/
def crossPairs (dates : List DateRow) (products : List Product) : List (DateRow × Product) :=
  dates.flatMap fun d => products.map fun p => (d, p)

/-- All sale records emitted by `generate_sales_data` given the dimension
rows, the product rows and the random oracle. -/
def allSales (g : ℕ → ℕ) (dates : List DateRow) (products : List Product) (i : ℕ) :
    Option (List SaleRecord × ℕ) :=
  genPairs g (crossPairs dates products) i

/-! ## Batch Persistence Sink (source lines 109-111, 161-171, 173-181) -/

/-- Append one record to the buffer and flush when the buffer has reached
the batch size (the `if len(batch_data) >= batch_size` check of source
line 162, performed after every append). -/
def flushStep (bs : ℕ) (st : List (List α) × List α) (r : α) : List (List α) × List α :=
  let buf := st.2 ++ [r]
  if bs ≤ buf.length then (st.1 ++ [buf], []) else (st.1, buf)

/-- Feed every emitted record through `flushStep`: returns the full flushes
performed during the loop and the remaining buffer. -/
def flushRun (bs : ℕ) (rs : List α) : List (List α) × List α :=
  rs.foldl (flushStep bs) ([], [])

/-- The complete flush sequence of a run: the in-loop flushes followed by
the final partial flush of source lines 173-181 (performed only when the
buffer is nonempty). -/
def flushes (bs : ℕ) (rs : List α) : List (List α) :=
  if (flushRun bs rs).2.isEmpty then (flushRun bs rs).1
  else (flushRun bs rs).1 ++ [(flushRun bs rs).2]

/-- `batch_size = 1000` (source line 110). -/
def batch_size : ℕ := 1000

/-! ## Storage semantics and the try/except wrapper -/

/-- A storage write operation issued by the generator. -/
inductive DbOp (α : Type) where
  | deleteAll : DbOp α
  | insertRow : α → DbOp α
  | commitTx : DbOp α
  | flushBatch : List α → DbOp α
deriving DecidableEq

/-- Committed table contents and the uncommitted working copy of the open
connection. -/
structure DbState (α : Type) where
  committed : List α
  working : List α
deriving DecidableEq

/-- sqlite semantics of each operation: `deleteAll`/`insertRow` act on the
working copy, `commitTx` publishes it, `flushBatch` is an `executemany`
immediately followed by `commit` (source lines 163-169). -/
def applyOp (st : DbState α) : DbOp α → DbState α
  | .deleteAll => ⟨st.committed, []⟩
  | .insertRow r => ⟨st.committed, st.working ++ [r]⟩
  | .commitTx => ⟨st.working, st.working⟩
  | .flushBatch b => ⟨st.working ++ b, st.working ++ b⟩

/-- Apply a list of operations in order. -/
def applyOps (st : DbState α) (ops : List (DbOp α)) : DbState α :=
  ops.foldl applyOp st

/-- Execute operations with failure injection: the operation whose index is
`failAt` raises, stopping execution there; the Boolean reports whether a
failure occurred.  On failure the working copy is discarded when the
connection closes, so only `committed` survives. -/
def runOps (failAt : Option ℕ) : List (DbOp α) → ℕ → DbState α → DbState α × Bool
  | [], _, st => (st, false)
  | op :: rest, i, st =>
    if failAt = some i then (st, true) else runOps failAt rest (i + 1) (applyOp st op)

/-- What a caller of one of the generator functions observes: the returned
control flow (the source functions return `None`, and a propagated
exception would surface as `Except.error`), the committed table after the
connection closes, and the error message printed by the `except` block
(carrying the index of the failed operation). -/
structure RunResult (α : Type) where
  callerResult : Except ℕ Unit
  table : List α
  printedError : Option ℕ

/-- The storage operations issued by `generate_date_dimension`: clear the
table (source line 46), insert one row per day (lines 64-76), then a single
`conn.commit()` (line 80). -/
def dateDimOps (s e : ℕ) : List (DbOp DateRecord) :=
  DbOp.deleteAll :: (generate_date_dimension s e).map DbOp.insertRow ++ [DbOp.commitTx]

/-- `generate_date_dimension` as its caller sees it: the body runs under
`try`, the `except` block of source lines 83-84 catches any storage error,
prints it and falls through, so the function returns normally either way. -/
def generate_date_dimension_run (failAt : Option ℕ) (prior : List DateRecord) (s e : ℕ) :
    RunResult DateRecord :=
  let out := runOps failAt (dateDimOps s e) 0 ⟨prior, prior⟩
  if out.2 then ⟨Except.ok (), out.1.committed, failAt⟩
  else ⟨Except.ok (), out.1.committed, none⟩

/-- The storage operations issued by `generate_sales_data`: clear the fact
table (source line 96), then one `executemany` + `commit` per flush of the
batching sink (lines 161-181). -/
def salesOps (rs : List SaleRecord) : List (DbOp SaleRecord) :=
  DbOp.deleteAll :: (flushes batch_size rs).map DbOp.flushBatch

/-- The storage phase of `generate_sales_data` on a successfully generated
record stream, under the same try/except wrapper (source lines 185-186). -/
def salesStorageRun (failAt : Option ℕ) (prior rs : List SaleRecord) : RunResult SaleRecord :=
  let out := runOps failAt (salesOps rs) 0 ⟨prior, prior⟩
  if out.2 then ⟨Except.ok (), out.1.committed, failAt⟩
  else ⟨Except.ok (), out.1.committed, none⟩

/-- `generate_sales_data` as its caller sees it.  A generation failure
(empty `randint` range) is likewise caught by the same `except` block; it is
modelled as aborting before any storage write, which is exact whenever the
failure precedes the first flush. -/
def generate_sales_data_run (failAt : Option ℕ) (prior : List SaleRecord) (g : ℕ → ℕ)
    (dates : List DateRow) (products : List Product) : RunResult SaleRecord :=
  match allSales g dates products 0 with
  | none => ⟨Except.ok (), prior, some 0⟩
  | some (rs, _) => salesStorageRun failAt prior rs

/-! ## Basic lemmas -/

theorem ratTrunc_of_nonneg {q : ℚ} (h : 0 ≤ q) : ratTrunc q = ⌊q⌋ := if_pos h

theorem ratTrunc_mono_of_nonneg {a b : ℚ} (ha : 0 ≤ a) (hab : a ≤ b) :
    ratTrunc a ≤ ratTrunc b := by
  rw [ratTrunc_of_nonneg ha, ratTrunc_of_nonneg (ha.trans hab)]
  exact Int.floor_le_floor hab

theorem le_ratTrunc_of_le {n : ℤ} {q : ℚ} (hn : 0 ≤ n) (h : (n : ℚ) ≤ q) :
    n ≤ ratTrunc q := by
  have h0 : (0 : ℚ) ≤ q := le_trans (by exact_mod_cast hn) h
  rw [ratTrunc_of_nonneg h0]
  exact Int.le_floor.mpr h

theorem seasonal_multiplier_nonneg (month dow : ℕ) : 0 ≤ seasonal_multiplier month dow := by
  unfold seasonal_multiplier
  split_ifs <;> norm_num

theorem one_le_seasonal_multiplier (month dow : ℕ) : 1 ≤ seasonal_multiplier month dow := by
  unfold seasonal_multiplier
  split_ifs <;> norm_num

theorem one_le_yoy_growth {year : ℤ} (h : 2015 ≤ year) : 1 ≤ yoy_growth year := by
  unfold yoy_growth
  have h2 : (2015 : ℚ) ≤ (year : ℚ) := by exact_mod_cast h
  linarith

theorem yoy_growth_nonneg {year : ℤ} (h : 2005 ≤ year) : 0 ≤ yoy_growth year := by
  unfold yoy_growth
  have h2 : (2005 : ℚ) ≤ (year : ℚ) := by exact_mod_cast h
  linarith

theorem final_quantity_ge_ten {bq year : ℤ} (hbq : 10 ≤ bq) (hy : 2015 ≤ year)
    (month dow : ℕ) : 10 ≤ final_quantity bq month dow year := by
  apply le_ratTrunc_of_le (by norm_num)
  have h1 : (10 : ℚ) ≤ (bq : ℚ) := by exact_mod_cast hbq
  have h2 := one_le_seasonal_multiplier month dow
  have h3 := one_le_yoy_growth hy
  have h4 : (10 : ℚ) ≤ (bq : ℚ) * seasonal_multiplier month dow := by nlinarith
  push_cast
  nlinarith

/-! ## Claim C1 -/

/-- C1: for every (date, product) pair, the demand ceiling equals the
truncation to an integer of base_quantity times the seasonal multiplier
(1.5 for December, 1.3 for January, 1.2 for June-August, else 1.0) times
the weekend multiplier (1.2 on Saturday/Sunday) times the growth factor
1 + 0.1 × (year − 2015), and the growth factor is negative for some years
before 2015. -/
theorem demand_ceiling_formula :
    (∀ (bq : ℤ) (month dow : ℕ) (year : ℤ),
        final_quantity bq month dow year = specDemandCeiling bq month dow year)
      ∧ ∃ year : ℤ, year < 2015 ∧ specGrowthFactor year < 0 := by
  constructor
  · intro bq month dow year
    simp only [final_quantity, specDemandCeiling, seasonal_multiplier, specSeasonalMult,
      specWeekendMult, yoy_growth, specGrowthFactor]
    congr 1
    split_ifs <;> ring
  · refine ⟨2000, by norm_num, ?_⟩
    norm_num [specGrowthFactor]

/-! ## Claim C9 -/

/-- C9 counterexample: with the base-quantity draw 10, weekday 0 and year
2000 (growth factor −0.5), the December ceiling is strictly below the
ceiling of the non-seasonal month March, refuting the unrestricted
monotonicity claim. -/
theorem december_ceiling_counterexample :
    final_quantity 10 12 0 2000 < final_quantity 10 3 0 2000 := by
  norm_num [final_quantity, seasonal_multiplier, yoy_growth, ratTrunc, Rat.floor_def]

/-- C9 amended: for a fixed base-quantity draw (in [10, 50]), fixed weekday
and fixed year whose growth factor is nonnegative (year ≥ 2005), the
December demand ceiling is at least the ceiling of any non-seasonal
month. -/
theorem december_ceiling_ge_nonseasonal (bq : ℤ) (dow : ℕ) (year : ℤ) (m : ℕ)
    (hbq10 : 10 ≤ bq) (_hbq50 : bq ≤ 50)
    (h12 : m ≠ 12) (h1 : m ≠ 1) (h6 : m ≠ 6) (h7 : m ≠ 7) (h8 : m ≠ 8)
    (hy : 2005 ≤ year) :
    final_quantity bq m dow year ≤ final_quantity bq 12 dow year := by
  have hyoy : 0 ≤ yoy_growth year := yoy_growth_nonneg hy
  have hbq : (0 : ℚ) ≤ (bq : ℚ) := by exact_mod_cast le_trans (by norm_num) hbq10
  have hmle : seasonal_multiplier m dow ≤ seasonal_multiplier 12 dow := by
    unfold seasonal_multiplier
    split_ifs <;> simp_all <;> norm_num
  have harg : (bq : ℚ) * seasonal_multiplier m dow * yoy_growth year ≤
      (bq : ℚ) * seasonal_multiplier 12 dow * yoy_growth year :=
    mul_le_mul_of_nonneg_right (mul_le_mul_of_nonneg_left hmle hbq) hyoy
  have hnn : 0 ≤ (bq : ℚ) * seasonal_multiplier m dow * yoy_growth year :=
    mul_nonneg (mul_nonneg hbq (seasonal_multiplier_nonneg m dow)) hyoy
  exact ratTrunc_mono_of_nonneg hnn harg

/-- Witness for C9 amended: at base quantity 10, weekday 0, year 2015 and
the non-seasonal month March the hypotheses hold and the conclusion follows
by the theorem. -/
theorem december_ceiling_ge_nonseasonal_witness :
    ((10 : ℤ) ≤ 10 ∧ (10 : ℤ) ≤ 50 ∧ (3 : ℕ) ≠ 12 ∧ (3 : ℕ) ≠ 1 ∧ (3 : ℕ) ≠ 6 ∧
        (3 : ℕ) ≠ 7 ∧ (3 : ℕ) ≠ 8 ∧ (2005 : ℤ) ≤ 2015)
      ∧ final_quantity 10 3 0 2015 ≤ final_quantity 10 12 0 2015 := by
  refine ⟨by norm_num, ?_⟩
  exact december_ceiling_ge_nonseasonal 10 0 2015 3 (by norm_num) (by norm_num) (by norm_num)
    (by norm_num) (by norm_num) (by norm_num) (by norm_num) (by norm_num)

/-! ## Calendar lemmas -/

theorem mkDateRecord_ordinal (n : ℕ) : (mkDateRecord n).ordinal = n := rfl

theorem buildDatesAux_map_ordinal :
    ∀ (f c : ℕ), (buildDatesAux f c).map DateRecord.ordinal = List.range' c f := by
  intro f
  induction f with
  | zero => intro c; rfl
  | succ f ih =>
    intro c
    rw [List.range'_succ]
    simp only [buildDatesAux, List.map_cons, mkDateRecord_ordinal, ih]

theorem mem_buildDatesAux {r : DateRecord} :
    ∀ {f c : ℕ}, r ∈ buildDatesAux f c → ∃ n, r = mkDateRecord n := by
  intro f
  induction f with
  | zero => intro c h; cases h
  | succ f ih =>
    intro c h
    rcases List.mem_cons.mp h with h1 | h2
    · exact ⟨c, h1⟩
    · exact ih h2

theorem buildDatesAux_chain (f : ℕ) :
    ∀ c, List.Chain' (fun a b => b.ordinal = a.ordinal + 1) (buildDatesAux f c) := by
  induction f with
  | zero => intro c; exact List.chain'_nil
  | succ f ih =>
    intro c
    cases f with
    | zero => exact List.chain'_singleton _
    | succ f2 =>
      exact List.Chain'.cons rfl (ih (c + 1))

/-! ## Claim C4 -/

/-- C4: for start ≤ end the Calendar Builder emits exactly one DateRecord
per day ordinal in the inclusive range, in ascending order with no gaps and
no duplicates: the emitted ordinals are the interval, the length matches,
membership is exactly the interval, they are duplicate-free with count one
per day, and consecutive records differ by exactly one day. -/
theorem calendar_builder_covers_range (s e : ℕ) (hse : s ≤ e) :
    (generate_date_dimension s e).map DateRecord.ordinal = List.range' s (e + 1 - s)
      ∧ (generate_date_dimension s e).length = e + 1 - s
      ∧ (∀ d : ℕ, d ∈ (generate_date_dimension s e).map DateRecord.ordinal ↔ s ≤ d ∧ d ≤ e)
      ∧ ((generate_date_dimension s e).map DateRecord.ordinal).Nodup
      ∧ (∀ d : ℕ, s ≤ d → d ≤ e →
          ((generate_date_dimension s e).map DateRecord.ordinal).count d = 1)
      ∧ List.Chain' (fun a b => b.ordinal = a.ordinal + 1) (generate_date_dimension s e) := by
  have hmap := buildDatesAux_map_ordinal (e + 1 - s) s
  have hmem : ∀ d : ℕ, d ∈ (generate_date_dimension s e).map DateRecord.ordinal ↔
      s ≤ d ∧ d ≤ e := by
    intro d
    rw [generate_date_dimension, hmap, List.mem_range'_1]
    omega
  have hnd : ((generate_date_dimension s e).map DateRecord.ordinal).Nodup := by
    rw [generate_date_dimension, hmap]
    exact List.nodup_range' s (e + 1 - s)
  refine ⟨hmap, ?_, hmem, hnd, ?_, buildDatesAux_chain (e + 1 - s) s⟩
  · have := congrArg List.length hmap
    simpa using this
  · intro d hd1 hd2
    exact List.count_eq_one_of_mem hnd ((hmem d).mpr ⟨hd1, hd2⟩)

/-- Witness for C4 at the concrete range [5, 7]. -/
theorem calendar_builder_covers_range_witness :
    5 ≤ 7 ∧
      ((generate_date_dimension 5 7).map DateRecord.ordinal = List.range' 5 (7 + 1 - 5)
        ∧ (generate_date_dimension 5 7).length = 7 + 1 - 5
        ∧ (∀ d : ℕ, d ∈ (generate_date_dimension 5 7).map DateRecord.ordinal ↔ 5 ≤ d ∧ d ≤ 7)
        ∧ ((generate_date_dimension 5 7).map DateRecord.ordinal).Nodup
        ∧ (∀ d : ℕ, 5 ≤ d → d ≤ 7 →
            ((generate_date_dimension 5 7).map DateRecord.ordinal).count d = 1)
        ∧ List.Chain' (fun a b => b.ordinal = a.ordinal + 1) (generate_date_dimension 5 7)) :=
  ⟨by decide, calendar_builder_covers_range 5 7 (by decide)⟩

/-! ## Claim C5 -/

/-- Modelled from the claim wording: months 12, 1, 2 map to Winter, months
3, 4, 5 to Spring, months 6, 7, 8 to Summer, and all other months to
Fall. -/
def specSeason (month : ℕ) : String :=
  if month = 12 ∨ month = 1 ∨ month = 2 then "Winter"
  else if month = 3 ∨ month = 4 ∨ month = 5 then "Spring"
  else if month = 6 ∨ month = 7 ∨ month = 8 then "Summer"
  else "Fall"

theorem seasonOfMonth_eq_specSeason (m : ℕ) : seasonOfMonth m = specSeason m := rfl

/-- C5: in every DateRecord the season is the stated pure function of the
month and the quarter is ((month − 1) // 3) + 1. -/
theorem season_quarter_pure_functions (s e : ℕ) :
    ∀ r ∈ generate_date_dimension s e,
      r.season = specSeason r.month ∧ r.quarter = (r.month - 1) / 3 + 1 := by
  intro r hr
  obtain ⟨n, rfl⟩ := mem_buildDatesAux hr
  exact ⟨seasonOfMonth_eq_specSeason _, rfl⟩

/-- Witness for C5: the first record of the hard-coded dimension. -/
theorem season_quarter_pure_functions_witness :
    mkDateRecord 16436 ∈ generate_date_dimension 16436 16437
      ∧ ((mkDateRecord 16436).season = specSeason (mkDateRecord 16436).month
          ∧ (mkDateRecord 16436).quarter = ((mkDateRecord 16436).month - 1) / 3 + 1) :=
  ⟨by decide, season_quarter_pure_functions 16436 16437 (mkDateRecord 16436) (by decide)⟩

/-! ## Claim C8 -/

theorem runOps_none (ops : List (DbOp α)) :
    ∀ (i : ℕ) (st : DbState α), runOps none ops i st = (applyOps st ops, false) := by
  induction ops with
  | nil => intro i st; rfl
  | cons op rest ih =>
    intro i st
    rw [runOps, if_neg (by simp), ih]
    rfl

theorem applyOps_cons (st : DbState α) (op : DbOp α) (ops : List (DbOp α)) :
    applyOps st (op :: ops) = applyOps (applyOp st op) ops := rfl

theorem applyOps_append (st : DbState α) (l1 l2 : List (DbOp α)) :
    applyOps st (l1 ++ l2) = applyOps (applyOps st l1) l2 := by
  simp [applyOps, List.foldl_append]

theorem applyOps_insertRows (l : List α) :
    ∀ (c w : List α), applyOps ⟨c, w⟩ (l.map DbOp.insertRow) = ⟨c, w ++ l⟩ := by
  induction l with
  | nil => intro c w; simp [applyOps]
  | cons r rest ih =>
    intro c w
    simp only [List.map_cons, applyOps, List.foldl_cons] at ih ⊢
    rw [applyOp]
    rw [ih]
    simp

/-- A successful (failure-free) calendar-builder run replaces the table with
exactly the generated rows, whatever was there before. -/
theorem dateDim_run_success (prior : List DateRecord) (s e : ℕ) :
    (generate_date_dimension_run none prior s e).table = generate_date_dimension s e := by
  unfold generate_date_dimension_run
  rw [runOps_none]
  simp only [Bool.false_eq_true, if_false]
  show (applyOps ⟨prior, prior⟩ (dateDimOps s e)).committed = _
  rw [dateDimOps, applyOps_append, applyOps_cons]
  show (applyOps (applyOps ⟨prior, []⟩
      ((generate_date_dimension s e).map DbOp.insertRow)) [DbOp.commitTx]).committed = _
  rw [applyOps_insertRows]
  rfl

/-- C8: the Calendar Builder is idempotent: a second run over the same range
leaves storage with the same records as one run, and the resulting table has
no duplicate rows (truncate-then-rebuild). -/
theorem calendar_builder_idempotent (prior : List DateRecord) (s e : ℕ) :
    (generate_date_dimension_run none
        ((generate_date_dimension_run none prior s e).table) s e).table
      = (generate_date_dimension_run none prior s e).table
    ∧ ((generate_date_dimension_run none prior s e).table).Nodup := by
  constructor
  · simp only [dateDim_run_success]
  · rw [dateDim_run_success]
    apply List.Nodup.of_map DateRecord.ordinal
    rw [generate_date_dimension, buildDatesAux_map_ordinal]
    exact List.nodup_range' s (e + 1 - s)

/-! ## Random-draw lemmas -/

theorem randint_eq_some (g : ℕ → ℕ) (i : ℕ) {lo hi : ℤ} (h : lo ≤ hi) :
    randint g i lo hi = some (lo + (g i : ℤ) % (hi - lo + 1)) := if_pos h

theorem randint_bounds {g : ℕ → ℕ} {i : ℕ} {lo hi v : ℤ}
    (h : randint g i lo hi = some v) : lo ≤ v ∧ v ≤ hi := by
  unfold randint at h
  split at h
  · have hm : (0 : ℤ) < hi - lo + 1 := by omega
    have h1 := Int.emod_nonneg (g i : ℤ) (by omega : hi - lo + 1 ≠ 0)
    have h2 := Int.emod_lt_of_pos (g i : ℤ) hm
    have hv : lo + (g i : ℤ) % (hi - lo + 1) = v := Option.some.inj h
    omega
  · cases h

theorem choiceD_discountPool (g : ℕ → ℕ) (i : ℕ) :
    choiceD g i discountPool 0 = 0 ∨ choiceD g i discountPool 0 = 0.1 ∨
      choiceD g i discountPool 0 = 0.2 := by
  have h : g i % 5 = 0 ∨ g i % 5 = 1 ∨ g i % 5 = 2 ∨ g i % 5 = 3 ∨ g i % 5 = 4 := by omega
  rcases h with h | h | h | h | h <;> norm_num [choiceD, discountPool, List.getD, h]

/-! ## Per-record invariants of the synthesizer -/

/-- Everything the inner record loop guarantees about each emitted record:
the ids are the ones of the current pair, the discount comes from the
discount pool, the prices satisfy the arithmetic of source lines 146-147,
and the quantity is a successful draw from [1, demand ceiling]. -/
def RecordInv (pid did : ℕ) (bp : ℚ) (fq : ℤ) (r : SaleRecord) : Prop :=
  r.product_id = pid ∧ r.date_id = did
    ∧ (r.discount = 0 ∨ r.discount = 0.1 ∨ r.discount = 0.2)
    ∧ r.unit_price = bp * (1 - r.discount)
    ∧ r.total_price = r.unit_price * (r.quantity : ℚ)
    ∧ 1 ≤ r.quantity ∧ r.quantity ≤ fq

theorem mkSales_spec (g : ℕ → ℕ) (pid did : ℕ) (bp : ℚ) (fq : ℤ) :
    ∀ (k i : ℕ) (rs : List SaleRecord) (j : ℕ),
      mkSales g pid did bp fq k i = some (rs, j) →
      rs.length = k ∧ ∀ r ∈ rs, RecordInv pid did bp fq r := by
  intro k
  induction k with
  | zero =>
    intro i rs j h
    simp only [mkSales, Option.some.injEq, Prod.mk.injEq] at h
    obtain ⟨h1, h2⟩ := h
    subst h1
    exact ⟨rfl, by intro r hr; cases hr⟩
  | succ k ih =>
    intro i rs j h
    rw [mkSales] at h
    cases hq : randint g i 1 fq with
    | none => rw [hq] at h; cases h
    | some q =>
      rw [hq] at h
      cases hrec : mkSales g pid did bp fq k (i + 4) with
      | none => rw [hrec] at h; cases h
      | some out =>
        obtain ⟨rest, i2⟩ := out
        rw [hrec] at h
        simp only [Option.bind_eq_bind, Option.some_bind, Option.some.injEq,
          Prod.mk.injEq] at h
        obtain ⟨h1, h2⟩ := h
        subst h1
        obtain ⟨hlen, hmem⟩ := ih (i + 4) rest i2 hrec
        refine ⟨by simp [hlen], ?_⟩
        intro r hr
        rcases List.mem_cons.mp hr with hr1 | hr2
        · subst hr1
          obtain ⟨hqlo, hqhi⟩ := randint_bounds hq
          exact ⟨rfl, rfl, choiceD_discountPool g (i + 1), rfl, rfl, hqlo, hqhi⟩
        · exact hmem r hr2

theorem mkSales_isSome (g : ℕ → ℕ) (pid did : ℕ) (bp : ℚ) {fq : ℤ} (hfq : 1 ≤ fq) :
    ∀ (k i : ℕ), ∃ out, mkSales g pid did bp fq k i = some out := by
  intro k
  induction k with
  | zero => intro i; exact ⟨([], i), rfl⟩
  | succ k ih =>
    intro i
    obtain ⟨out, hout⟩ := ih (i + 4)
    rw [mkSales, randint_eq_some g i hfq, hout]
    exact ⟨_, rfl⟩

/-! ## Per-pair lemmas -/

theorem pairSales_spec {g : ℕ → ℕ} {d : DateRow} {p : Product} {i : ℕ}
    {rs : List SaleRecord} {j : ℕ} (h : pairSales g d p i = some (rs, j)) :
    (1 ≤ rs.length ∧ rs.length ≤ 3)
      ∧ (rs.length : ℤ) = 1 + (g (i + 1) : ℤ) % 3
      ∧ ∀ r ∈ rs,
          RecordInv p.product_id d.date_id p.base_price
            (final_quantity (10 + (g i : ℤ) % 41) d.month d.day_of_week d.year) r := by
  rw [pairSales, randint_eq_some g i (by norm_num : (10 : ℤ) ≤ 50),
    randint_eq_some g (i + 1) (by norm_num : (1 : ℤ) ≤ 3)] at h
  simp only [Option.bind_eq_bind, Option.some_bind] at h
  norm_num at h
  obtain ⟨hlen, hmem⟩ := mkSales_spec g p.product_id d.date_id p.base_price _ _ _ _ _ h
  have hm3 : (0 : ℤ) ≤ (g (i + 1) : ℤ) % 3 ∧ (g (i + 1) : ℤ) % 3 < 3 :=
    ⟨Int.emod_nonneg _ (by norm_num), Int.emod_lt_of_pos _ (by norm_num)⟩
  have htn : ((1 + (g (i + 1) : ℤ) % 3).toNat : ℤ) = 1 + (g (i + 1) : ℤ) % 3 :=
    Int.toNat_of_nonneg (by omega)
  constructor
  · omega
  · refine ⟨by omega, hmem⟩

theorem pairSales_isSome (g : ℕ → ℕ) (d : DateRow) (p : Product) (i : ℕ)
    (hy : 2015 ≤ d.year) :
    ∃ out, pairSales g d p i = some out := by
  have hbq : (10 : ℤ) ≤ 10 + (g i : ℤ) % 41 := by
    have := Int.emod_nonneg (g i : ℤ) (by norm_num : (41 : ℤ) ≠ 0)
    omega
  have hfq : 1 ≤ final_quantity (10 + (g i : ℤ) % 41) d.month d.day_of_week d.year := by
    have h10 := final_quantity_ge_ten hbq hy d.month d.day_of_week
    omega
  obtain ⟨⟨rs1, j1⟩, hout⟩ :=
    mkSales_isSome g p.product_id d.date_id p.base_price hfq
      (1 + (g (i + 1) : ℤ) % 3).toNat (i + 2)
  rw [pairSales, randint_eq_some g i (by norm_num : (10 : ℤ) ≤ 50),
    randint_eq_some g (i + 1) (by norm_num : (1 : ℤ) ≤ 3)]
  simp only [Option.bind_eq_bind, Option.some_bind]
  norm_num
  exact ⟨rs1, j1, hout⟩

/-! ## Whole-run lemmas for the synthesizer -/

theorem genPairs_member_props (g : ℕ → ℕ) :
    ∀ (pairs : List (DateRow × Product)) (i : ℕ) (rs : List SaleRecord) (j : ℕ),
      genPairs g pairs i = some (rs, j) →
      ∀ r ∈ rs, ∃ pr ∈ pairs, ∃ fq : ℤ,
        RecordInv pr.2.product_id pr.1.date_id pr.2.base_price fq r := by
  intro pairs
  induction pairs with
  | nil =>
    intro i rs j h r hr
    simp only [genPairs, Option.some.injEq, Prod.mk.injEq] at h
    obtain ⟨h1, _⟩ := h
    subst h1
    cases hr
  | cons dp rest ih =>
    obtain ⟨d, p⟩ := dp
    intro i rs j h
    rw [genPairs] at h
    cases h1 : pairSales g d p i with
    | none => rw [h1] at h; cases h
    | some out1 =>
      obtain ⟨rs1, i1⟩ := out1
      rw [h1] at h
      simp only [Option.bind_eq_bind, Option.some_bind] at h
      cases h2 : genPairs g rest i1 with
      | none => rw [h2] at h; cases h
      | some out2 =>
        obtain ⟨rs2, i2⟩ := out2
        rw [h2] at h
        simp only [Option.bind_eq_bind, Option.some_bind, Option.some.injEq,
          Prod.mk.injEq] at h
        obtain ⟨h3, _⟩ := h
        subst h3
        intro r hr
        rcases List.mem_append.mp hr with hr1 | hr2
        · obtain ⟨_, _, hmem⟩ := pairSales_spec h1
          exact ⟨(d, p), List.mem_cons_self _ _, _, hmem r hr1⟩
        · obtain ⟨pr, hpr, fq, hinv⟩ := ih i1 rs2 i2 h2 r hr2
          exact ⟨pr, List.mem_cons_of_mem _ hpr, fq, hinv⟩

theorem genPairs_chunks (g : ℕ → ℕ) :
    ∀ (pairs : List (DateRow × Product)) (i : ℕ) (rs : List SaleRecord) (j : ℕ),
      genPairs g pairs i = some (rs, j) →
      ∃ chunks : List (List SaleRecord),
        rs = chunks.flatten
          ∧ List.Forall₂ (fun (pr : DateRow × Product) (c : List SaleRecord) =>
              (1 ≤ c.length ∧ c.length ≤ 3)
              ∧ ∀ r ∈ c, r.product_id = pr.2.product_id ∧ r.date_id = pr.1.date_id)
            pairs chunks := by
  intro pairs
  induction pairs with
  | nil =>
    intro i rs j h
    simp only [genPairs, Option.some.injEq, Prod.mk.injEq] at h
    obtain ⟨h1, _⟩ := h
    subst h1
    exact ⟨[], rfl, List.Forall₂.nil⟩
  | cons dp rest ih =>
    obtain ⟨d, p⟩ := dp
    intro i rs j h
    rw [genPairs] at h
    cases h1 : pairSales g d p i with
    | none => rw [h1] at h; cases h
    | some out1 =>
      obtain ⟨rs1, i1⟩ := out1
      rw [h1] at h
      simp only [Option.bind_eq_bind, Option.some_bind] at h
      cases h2 : genPairs g rest i1 with
      | none => rw [h2] at h; cases h
      | some out2 =>
        obtain ⟨rs2, i2⟩ := out2
        rw [h2] at h
        simp only [Option.bind_eq_bind, Option.some_bind, Option.some.injEq,
          Prod.mk.injEq] at h
        obtain ⟨h3, _⟩ := h
        subst h3
        obtain ⟨chunks, hjoin, hfa⟩ := ih i1 rs2 i2 h2
        obtain ⟨hlen, _, hmem⟩ := pairSales_spec h1
        refine ⟨rs1 :: chunks, by simp [hjoin], List.Forall₂.cons ⟨hlen, ?_⟩ hfa⟩
        intro r hr
        obtain ⟨hpid, hdid, _⟩ := hmem r hr
        exact ⟨hpid, hdid⟩

theorem genPairs_isSome (g : ℕ → ℕ) :
    ∀ (pairs : List (DateRow × Product)), (∀ pr ∈ pairs, 2015 ≤ pr.1.year) →
      ∀ i, ∃ out, genPairs g pairs i = some out := by
  intro pairs
  induction pairs with
  | nil => intro _ i; exact ⟨([], i), rfl⟩
  | cons dp rest ih =>
    obtain ⟨d, p⟩ := dp
    intro hok i
    obtain ⟨⟨rs1, i1⟩, h1⟩ := pairSales_isSome g d p i (hok (d, p) (List.mem_cons_self _ _))
    obtain ⟨⟨rs2, i2⟩, h2⟩ := ih (fun pr hpr => hok pr (List.mem_cons_of_mem _ hpr)) i1
    rw [genPairs, h1]
    simp only [Option.bind_eq_bind, Option.some_bind]
    rw [h2]
    exact ⟨_, rfl⟩

theorem crossPairs_mem {dates : List DateRow} {products : List Product}
    {pr : DateRow × Product} (h : pr ∈ crossPairs dates products) :
    pr.1 ∈ dates ∧ pr.2 ∈ products := by
  obtain ⟨d, hd, hpr⟩ := List.mem_flatMap.mp h
  obtain ⟨p, hp, hpr2⟩ := List.mem_map.mp hpr
  subst hpr2
  exact ⟨hd, hp⟩

/-! ## Witness fixtures: a one-day, one-product run with the all-zero
oracle.  The single emitted record was computed from the definitions. -/

def wOracle : ℕ → ℕ := fun _ => 0

def wDate : DateRow := ⟨1, 2015, 1, 3⟩

def wProduct : Product := ⟨1, 100⟩

def wSale : SaleRecord := ⟨1, 1, 1, 100, 100, 0, "online", "North"⟩

theorem wRun_eval : allSales wOracle [wDate] [wProduct] 0 = some ([wSale], 6) := by
  norm_num [allSales, crossPairs, genPairs, pairSales, mkSales, randint, choiceD,
    discountPool, channels, regions, final_quantity, seasonal_multiplier, yoy_growth,
    ratTrunc, Rat.floor_def, wOracle, wDate, wProduct, wSale]

/-! ## Claim C2 -/

/-- C2: every SaleRecord emitted by the Transaction Synthesizer has a
discount in {0, 0.1, 0.2}, a unit price equal to the base price of its
product times (1 − discount), and a total price equal to unit price times
quantity, with exact (rational) equality. -/
theorem sale_record_price_invariants (g : ℕ → ℕ) (dates : List DateRow)
    (products : List Product) (i : ℕ) (rs : List SaleRecord) (j : ℕ)
    (h : allSales g dates products i = some (rs, j)) :
    ∀ r ∈ rs,
      (r.discount = 0 ∨ r.discount = 0.1 ∨ r.discount = 0.2)
      ∧ (∃ p ∈ products, r.product_id = p.product_id ∧
          r.unit_price = p.base_price * (1 - r.discount))
      ∧ r.total_price = r.unit_price * (r.quantity : ℚ) := by
  intro r hr
  obtain ⟨pr, hpr, fq, hinv⟩ := genPairs_member_props g _ i rs j h r hr
  exact ⟨hinv.2.2.1, ⟨pr.2, (crossPairs_mem hpr).2, hinv.1, hinv.2.2.2.1⟩,
    hinv.2.2.2.2.1⟩

/-- Witness for C2: the concrete one-record run. -/
theorem sale_record_price_invariants_witness :
    (allSales wOracle [wDate] [wProduct] 0 = some ([wSale], 6) ∧ wSale ∈ [wSale])
      ∧ ((wSale.discount = 0 ∨ wSale.discount = 0.1 ∨ wSale.discount = 0.2)
          ∧ (∃ p ∈ [wProduct], wSale.product_id = p.product_id ∧
              wSale.unit_price = p.base_price * (1 - wSale.discount))
          ∧ wSale.total_price = wSale.unit_price * (wSale.quantity : ℚ)) :=
  ⟨⟨wRun_eval, List.mem_singleton_self _⟩,
    sale_record_price_invariants wOracle [wDate] [wProduct] 0 [wSale] 6 wRun_eval
      wSale (List.mem_singleton_self _)⟩

/-! ## Claim C3 -/

/-- C3: the synthesizer iterates exactly the cross product of dates and
products; for every pair of the worklist it emits a chunk of between 1 and
3 records referencing that pair, and the chunk size is the uniform draw
1 + (oracle mod 3) of `random.randint(1, 3)`. -/
theorem per_pair_transaction_count :
    (∀ (g : ℕ → ℕ) (dates : List DateRow) (products : List Product) (i : ℕ),
        allSales g dates products i = genPairs g (crossPairs dates products) i)
      ∧ (∀ (g : ℕ → ℕ) (pairs : List (DateRow × Product)) (i : ℕ)
            (rs : List SaleRecord) (j : ℕ),
          genPairs g pairs i = some (rs, j) →
          ∃ chunks : List (List SaleRecord),
            rs = chunks.flatten
              ∧ List.Forall₂ (fun (pr : DateRow × Product) (c : List SaleRecord) =>
                  (1 ≤ c.length ∧ c.length ≤ 3)
                  ∧ ∀ r ∈ c, r.product_id = pr.2.product_id ∧ r.date_id = pr.1.date_id)
                pairs chunks)
      ∧ (∀ (g : ℕ → ℕ) (d : DateRow) (p : Product) (i : ℕ) (rs : List SaleRecord) (j : ℕ),
          pairSales g d p i = some (rs, j) →
          (rs.length : ℤ) = 1 + (g (i + 1) : ℤ) % 3) :=
  ⟨fun _ _ _ _ => rfl,
    fun g pairs i rs j h => genPairs_chunks g pairs i rs j h,
    fun _ _ _ _ _ _ h => (pairSales_spec h).2.1⟩

/-- Witness for C3: on the concrete one-pair run the chunk decomposition
exists. -/
theorem per_pair_transaction_count_witness :
    genPairs wOracle [(wDate, wProduct)] 0 = some ([wSale], 6)
      ∧ ∃ chunks : List (List SaleRecord),
          [wSale] = chunks.flatten
            ∧ List.Forall₂ (fun (pr : DateRow × Product) (c : List SaleRecord) =>
                (1 ≤ c.length ∧ c.length ≤ 3)
                ∧ ∀ r ∈ c, r.product_id = pr.2.product_id ∧ r.date_id = pr.1.date_id)
              [(wDate, wProduct)] chunks := by
  have h : genPairs wOracle [(wDate, wProduct)] 0 = some ([wSale], 6) := wRun_eval
  exact ⟨h, per_pair_transaction_count.2.1 wOracle [(wDate, wProduct)] 0 [wSale] 6 h⟩

/-! ## Claim C10 -/

theorem buildDatesAux_append (a : ℕ) :
    ∀ (b c : ℕ), buildDatesAux (a + b) c = buildDatesAux a c ++ buildDatesAux b (c + a) := by
  induction a with
  | zero => intro b c; simp [buildDatesAux]
  | succ a ih =>
    intro b c
    have h1 : a + 1 + b = (a + b) + 1 := by omega
    rw [h1, buildDatesAux, buildDatesAux, ih b (c + 1), List.cons_append]
    have h2 : c + 1 + a = c + (a + 1) := by omega
    rw [h2]

set_option maxRecDepth 20000 in
/-- Every row of the hard-coded 2015-2024 dimension has its year in
[2015, 2024].  The range is split into 250-day chunks so each chunk can be
checked by evaluation. -/
theorem dateDimension_year_bounds :
    ∀ r ∈ dateDimension, 2015 ≤ r.year ∧ r.year ≤ 2024 := by
  have h0 : endDate + 1 - startDate = 3653 := by decide
  have h1 : startDate = 16436 := by decide
  rw [dateDimension, generate_date_dimension, h0, h1]
  rw [show (3653 : ℕ) = 250 + 3403 from rfl, buildDatesAux_append,
    show (3403 : ℕ) = 250 + 3153 from rfl, buildDatesAux_append,
    show (3153 : ℕ) = 250 + 2903 from rfl, buildDatesAux_append,
    show (2903 : ℕ) = 250 + 2653 from rfl, buildDatesAux_append,
    show (2653 : ℕ) = 250 + 2403 from rfl, buildDatesAux_append,
    show (2403 : ℕ) = 250 + 2153 from rfl, buildDatesAux_append,
    show (2153 : ℕ) = 250 + 1903 from rfl, buildDatesAux_append,
    show (1903 : ℕ) = 250 + 1653 from rfl, buildDatesAux_append,
    show (1653 : ℕ) = 250 + 1403 from rfl, buildDatesAux_append,
    show (1403 : ℕ) = 250 + 1153 from rfl, buildDatesAux_append,
    show (1153 : ℕ) = 250 + 903 from rfl, buildDatesAux_append,
    show (903 : ℕ) = 250 + 653 from rfl, buildDatesAux_append,
    show (653 : ℕ) = 250 + 403 from rfl, buildDatesAux_append,
    show (403 : ℕ) = 250 + 153 from rfl, buildDatesAux_append]
  simp only [List.forall_mem_append]
  exact ⟨by decide, by decide, by decide, by decide, by decide, by decide, by decide,
    by decide, by decide, by decide, by decide, by decide, by decide, by decide, by decide⟩


/-- C10: over the hard-coded 2015-2024 range every dimension row has a year
between 2015 and 2024; with any base-quantity draw in [10, 50] the demand
ceiling is at least 10; and the full generation run always succeeds (no
empty `randint` range) with every emitted record having quantity ≥ 1. -/
theorem hardcoded_generation_safe :
    (∀ r ∈ dateDimension, 2015 ≤ r.year ∧ r.year ≤ 2024)
      ∧ (∀ r ∈ dateDimension, ∀ bq : ℤ, 10 ≤ bq → bq ≤ 50 →
          10 ≤ final_quantity bq r.month r.day_of_week (r.year : ℤ))
      ∧ (∀ (g : ℕ → ℕ) (products : List Product) (i : ℕ),
          ∃ (rs : List SaleRecord) (j : ℕ),
            allSales g (dateDimension.map toDateRow) products i = some (rs, j)
              ∧ ∀ r ∈ rs, 1 ≤ r.quantity) := by
  have hyear := dateDimension_year_bounds
  refine ⟨hyear, ?_, ?_⟩
  · intro r hr bq h10 h50
    exact final_quantity_ge_ten h10 (by exact_mod_cast (hyear r hr).1) _ _
  · intro g products i
    have hok : ∀ pr ∈ crossPairs (dateDimension.map toDateRow) products,
        2015 ≤ pr.1.year := by
      intro pr hpr
      obtain ⟨rec, hrec, hmap⟩ := List.mem_map.mp (crossPairs_mem hpr).1
      have := (hyear rec hrec).1
      rw [← hmap]
      simp only [toDateRow]
      exact_mod_cast this
    obtain ⟨⟨rs, j⟩, hout⟩ := genPairs_isSome g _ hok i
    refine ⟨rs, j, hout, ?_⟩
    intro r hr
    obtain ⟨pr, hpr, fq, hinv⟩ := genPairs_member_props g _ i rs j hout r hr
    exact hinv.2.2.2.2.2.1

set_option maxRecDepth 10000 in
/-- Witness for C10: the first row of the hard-coded dimension is a member
and satisfies the year bounds. -/
theorem hardcoded_generation_safe_witness :
    mkDateRecord startDate ∈ dateDimension
      ∧ (2015 ≤ (mkDateRecord startDate).year ∧ (mkDateRecord startDate).year ≤ 2024) :=
  ⟨by decide, hardcoded_generation_safe.1 (mkDateRecord startDate) (by decide)⟩

/-! ## Claim C6 -/

theorem flushStep_foldl {α : Type} (bs : ℕ) (hbs : 1 ≤ bs) :
    ∀ (rs : List α) (fs : List (List α)) (buf : List α),
      buf.length < bs → (∀ b ∈ fs, b.length = bs) →
      ((rs.foldl (flushStep bs) (fs, buf)).1.flatten ++ (rs.foldl (flushStep bs) (fs, buf)).2
          = fs.flatten ++ buf ++ rs)
        ∧ (∀ b ∈ (rs.foldl (flushStep bs) (fs, buf)).1, b.length = bs)
        ∧ (rs.foldl (flushStep bs) (fs, buf)).2.length < bs := by
  intro rs
  induction rs with
  | nil =>
    intro fs buf hbuf hfs
    exact ⟨by simp, hfs, hbuf⟩
  | cons r rest ih =>
    intro fs buf hbuf hfs
    rw [List.foldl_cons]
    by_cases h : bs ≤ (buf ++ [r]).length
    · rw [flushStep, if_pos h]
      have hfull : (buf ++ [r]).length = bs := by
        simp only [List.length_append, List.length_singleton] at h ⊢
        omega
      have hfs2 : ∀ b ∈ fs ++ [buf ++ [r]], b.length = bs := by
        intro b hb
        rcases List.mem_append.mp hb with hb1 | hb2
        · exact hfs b hb1
        · rw [List.mem_singleton.mp hb2]
          exact hfull
      obtain ⟨hj, hlen, hrem⟩ := ih (fs ++ [buf ++ [r]]) [] (by simpa using hbs) hfs2
      refine ⟨?_, hlen, hrem⟩
      rw [hj]
      simp [List.append_assoc]
    · rw [flushStep, if_neg h]
      have hlt : (buf ++ [r]).length < bs := Nat.not_le.mp h
      obtain ⟨hj, hlen, hrem⟩ := ih fs (buf ++ [r]) hlt hfs
      refine ⟨?_, hlen, hrem⟩
      rw [hj]
      simp [List.append_assoc]

/-- C6: for any positive batch size, the sink flushes the whole buffer
exactly when it reaches the batch size (every in-loop flush has exactly
`bs` records and the residual buffer stays below `bs`), flushes the
remaining partial buffer at the end of the run, and loses or duplicates no
record (the concatenation of all flushes is exactly the emitted stream, in
order); the sales generator runs the sink at the default batch size 1000;
and with batch size 2 and 5 pending records the flush sizes are 2, 2, 1. -/
theorem batch_sink_policy :
    (∀ (bs : ℕ), 1 ≤ bs → ∀ (rs : List SaleRecord),
      (flushes bs rs).flatten = rs
        ∧ (∀ b ∈ (flushRun bs rs).1, b.length = bs)
        ∧ (flushRun bs rs).2.length < bs
        ∧ flushes bs rs =
            (if (flushRun bs rs).2.isEmpty then (flushRun bs rs).1
              else (flushRun bs rs).1 ++ [(flushRun bs rs).2])
        ∧ salesOps rs = DbOp.deleteAll :: (flushes 1000 rs).map DbOp.flushBatch)
      ∧ (flushes 2 (List.range 5)).map List.length = [2, 2, 1] := by
  constructor
  · intro bs hbs rs
    obtain ⟨hj, hlen, hrem⟩ :=
      flushStep_foldl bs hbs rs [] [] (by simpa using hbs) (by intro b hb; cases hb)
    have hrun : flushRun bs rs = rs.foldl (flushStep bs) ([], []) := rfl
    refine ⟨?_, by rw [hrun]; exact hlen, by rw [hrun]; exact hrem, rfl, rfl⟩
    rw [flushes, hrun]
    simp only [List.flatten_nil, List.nil_append] at hj
    by_cases hb : (rs.foldl (flushStep bs) ([], [])).2.isEmpty
    · rw [if_pos hb]
      have h2 : (rs.foldl (flushStep bs) ([], [])).2 = [] := List.isEmpty_iff.mp hb
      rw [h2, List.append_nil] at hj
      exact hj
    · rw [if_neg hb, List.flatten_append]
      simpa using hj
  · decide

/-- Witness for C6: batch size 2 on five copies of the sample record. -/
theorem batch_sink_policy_witness :
    1 ≤ 2
      ∧ ((flushes 2 (List.replicate 5 wSale)).flatten = List.replicate 5 wSale
          ∧ (∀ b ∈ (flushRun 2 (List.replicate 5 wSale)).1, b.length = 2)
          ∧ (flushRun 2 (List.replicate 5 wSale)).2.length < 2
          ∧ flushes 2 (List.replicate 5 wSale) =
              (if (flushRun 2 (List.replicate 5 wSale)).2.isEmpty
                then (flushRun 2 (List.replicate 5 wSale)).1
                else (flushRun 2 (List.replicate 5 wSale)).1 ++
                  [(flushRun 2 (List.replicate 5 wSale)).2])
          ∧ salesOps (List.replicate 5 wSale) =
              DbOp.deleteAll :: (flushes 1000 (List.replicate 5 wSale)).map DbOp.flushBatch) :=
  ⟨by norm_num, batch_sink_policy.1 2 (by norm_num) (List.replicate 5 wSale)⟩

/-! ## Claim C7 -/

theorem runOps_fail (k : ℕ) :
    ∀ (ops : List (DbOp α)) (i : ℕ) (st : DbState α), i ≤ k → k < i + ops.length →
      runOps (some k) ops i st = (applyOps st (ops.take (k - i)), true) := by
  intro ops
  induction ops with
  | nil =>
    intro i st h1 h2
    simp at h2
    omega
  | cons op rest ih =>
    intro i st h1 h2
    by_cases hk : k = i
    · subst hk
      rw [runOps, if_pos rfl]
      simp [applyOps]
    · rw [runOps, if_neg (by simpa using hk)]
      have h3 : i + 1 ≤ k := by omega
      have h4 : k < (i + 1) + rest.length := by
        simp only [List.length_cons] at h2
        omega
      rw [ih (i + 1) (applyOp st op) h3 h4]
      have h5 : k - i = (k - (i + 1)) + 1 := by omega
      rw [h5, List.take_succ_cons, applyOps_cons]

theorem applyOps_committed_of_local :
    ∀ (l : List (DbOp α)) (st : DbState α),
      (∀ op ∈ l, op = DbOp.deleteAll ∨ ∃ r, op = DbOp.insertRow r) →
      (applyOps st l).committed = st.committed := by
  intro l
  induction l with
  | nil => intro st _; rfl
  | cons op rest ih =>
    intro st hl
    rw [applyOps_cons, ih _ (fun o ho => hl o (List.mem_cons_of_mem _ ho))]
    rcases hl op (List.mem_cons_self _ _) with h | ⟨r, h⟩ <;> subst h <;> rfl

theorem applyOps_flushBatches (bs : List (List α)) :
    ∀ (c w : List α),
      applyOps ⟨c, w⟩ (bs.map DbOp.flushBatch) =
        if bs.isEmpty then ⟨c, w⟩ else ⟨w ++ bs.flatten, w ++ bs.flatten⟩ := by
  induction bs with
  | nil => intro c w; simp [applyOps]
  | cons b rest ih =>
    intro c w
    rw [List.map_cons, applyOps_cons]
    show applyOps ⟨w ++ b, w ++ b⟩ (rest.map DbOp.flushBatch) = _
    rw [ih (w ++ b) (w ++ b)]
    cases rest with
    | nil => simp
    | cons b2 rest2 => simp [List.append_assoc]

/-- C7 counterexample: inject a storage failure at the very first operation
(the DELETE) of a calendar-builder run over a two-day range.  The error is
printed (`printedError = some 0`) and the table is left untouched, but the
caller receives a normal `Except.ok ()` return: the failure does not
propagate, and the program goes on to run the next generation step. -/
theorem storage_error_swallowed :
    generate_date_dimension_run (some 0) [mkDateRecord 5] 0 1 =
      ⟨Except.ok (), [mkDateRecord 5], some 0⟩ := rfl

/-- C7 amended: when a storage operation fails inside
`generate_date_dimension` or inside the flush phase of
`generate_sales_data`, the exception is caught by the `except` block of the
failing function, which prints the error and returns normally to its caller
(no propagation); storage keeps nothing beyond what was committed before
the failure: the date-dimension table keeps its prior contents (its single
commit is the last operation), and the sales table keeps exactly the
batches flushed before the failing operation. -/
theorem storage_error_caught_and_logged :
    (∀ (k : ℕ) (prior : List DateRecord) (s e : ℕ), k < (dateDimOps s e).length →
        generate_date_dimension_run (some k) prior s e =
          ⟨Except.ok (), prior, some k⟩)
      ∧ (∀ (k : ℕ) (prior rs : List SaleRecord), k < (salesOps rs).length →
          salesStorageRun (some k) prior rs =
            ⟨Except.ok (),
              if k ≤ 1 then prior else ((flushes batch_size rs).take (k - 1)).flatten,
              some k⟩)
      ∧ (∀ (failAt : Option ℕ) (prior : List SaleRecord) (g : ℕ → ℕ)
            (dates : List DateRow) (products : List Product)
            (rs : List SaleRecord) (j : ℕ),
          allSales g dates products 0 = some (rs, j) →
          generate_sales_data_run failAt prior g dates products =
            salesStorageRun failAt prior rs) := by
  refine ⟨?_, ?_, ?_⟩
  · intro k prior s e hk
    unfold generate_date_dimension_run
    rw [runOps_fail k (dateDimOps s e) 0 ⟨prior, prior⟩ (by omega) (by omega)]
    simp only [if_true]
    have hcom : (applyOps ⟨prior, prior⟩ ((dateDimOps s e).take (k - 0))).committed
        = prior := by
      apply applyOps_committed_of_local
      intro op hop
      have hop2 : op ∈ (DbOp.deleteAll :: (generate_date_dimension s e).map DbOp.insertRow
          : List (DbOp DateRecord)) := by
        have hlen : k - 0 ≤ (DbOp.deleteAll ::
            (generate_date_dimension s e).map DbOp.insertRow).length := by
          simp only [dateDimOps, List.length_append, List.length_cons,
            List.length_map, List.length_nil] at hk ⊢
          omega
        have := List.take_subset (k - 0) (DbOp.deleteAll ::
            (generate_date_dimension s e).map DbOp.insertRow ++ [DbOp.commitTx])
        rw [dateDimOps] at hop
        rw [List.take_append_of_le_length hlen] at hop
        exact List.take_subset _ _ hop
      rcases List.mem_cons.mp hop2 with h | h
      · exact Or.inl h
      · obtain ⟨r, _, hr⟩ := List.mem_map.mp h
        exact Or.inr ⟨r, hr.symm⟩
    rw [hcom]
  · intro k prior rs hk
    unfold salesStorageRun
    rw [runOps_fail k (salesOps rs) 0 ⟨prior, prior⟩ (by omega) (by omega)]
    simp only [if_true]
    rcases Nat.eq_zero_or_pos k with hk0 | hkpos
    · subst hk0
      simp [applyOps, salesOps]
    · have hk1 : k - 0 = (k - 1) + 1 := by omega
      rw [salesOps, hk1, List.take_succ_cons, applyOps_cons]
      show RunResult.mk _ (applyOps ⟨prior, []⟩
          (((flushes batch_size rs).map DbOp.flushBatch).take (k - 1))).committed _ = _
      rw [← List.map_take, applyOps_flushBatches]
      rcases Nat.lt_or_ge k 2 with hk2 | hk2
      · have hk1' : k = 1 := by omega
        subst hk1'
        simp
      · have hne : ¬((flushes batch_size rs).take (k - 1)).isEmpty := by
          rw [List.isEmpty_iff, ← List.length_eq_zero]
          rw [List.length_take]
          have hflen : k - 1 ≤ (flushes batch_size rs).length := by
            simp only [salesOps, List.length_cons, List.length_map] at hk
            omega
          omega
        rw [if_neg hne, if_neg (by omega)]
        simp
  · intro failAt prior g dates products rs j h
    unfold generate_sales_data_run
    rw [h]

/-- Witness for C7 amended: failure injected at operation 1 (the first
insert) of a two-day calendar build leaves the prior table, prints the
error, and returns `ok` to the caller. -/
theorem storage_error_caught_and_logged_witness :
    1 < (dateDimOps 5 6).length
      ∧ generate_date_dimension_run (some 1) [mkDateRecord 9] 5 6 =
          ⟨Except.ok (), [mkDateRecord 9], some 1⟩ :=
  ⟨by decide, storage_error_caught_and_logged.1 1 [mkDateRecord 9] 5 6 (by decide)⟩

end FrontiersTableau
